import Mathlib

/-!
Shallow embedding of the DADApy discrete intrinsic-dimension estimator
(`IdDiscrete`): the discrete distance engine (full and condensed storage
modes), the density accessor, the binomial ID estimators, the model
validator and the scaling-curve driver, together with proofs of the
behavioural properties stated in the specification.

The repository ships only the test suite for the estimator class; the
class itself is therefore modelled from the specification, as recorded in
the doc comment of each modelled definition.
-/

open List

/-- Modelled from the spec: the error taxonomy of section 7
(ConfigurationError, StateError, NumericDegeneracy). -/
inductive Err where
  | configurationError
  | stateError
  | numericDegeneracy
deriving DecidableEq

/-- Modelled from the spec: warning-class conditions surfaced without
aborting a call; the only one required is the clamp of `maxk` to N-1. -/
inductive Warning where
  | maxkClamped
deriving DecidableEq

/-- Absolute difference of two natural coordinates. -/
def natGap (a b : ℕ) : ℕ := max a b - min a b

/-- Modelled from the spec: the per-coordinate delta of the distance
engine; with a period the minimum-image convention
`delta = min (natGap a b) (p - natGap a b)` applies. -/
def coordDelta (p? : Option ℕ) (a b : ℕ) : ℕ :=
  match p? with
  | none => natGap a b
  | some p => min (natGap a b) (p - natGap a b)

/-- Modelled from the spec: the Manhattan distance of the distance engine,
the per-coordinate deltas aggregated by summation.  The claims and the
reference tests exercise only the Manhattan metric, so it is the one
modelled here. -/
def manhattanDist (p? : Option ℕ) (v w : List ℕ) : ℕ :=
  (List.zipWith (coordDelta p?) v w).sum

/-- Modelled from the spec: the metric selector of `compute_distances`;
only the Manhattan variant is exercised by the claims. -/
inductive Metric where
  | manhattan
deriving DecidableEq

/-- Boolean comparison sorting neighbour entries by ascending distance,
ties broken by neighbour index (the determinism invariant of the
DistanceTable). -/
def pairLE (a b : ℕ × ℕ) : Bool :=
  decide (a.1 < b.1 ∨ (a.1 = b.1 ∧ a.2 ≤ b.2))

/-- Insert an element into a list so that a sorted list stays sorted. -/
def insertSorted (le : α → α → Bool) (a : α) : List α → List α
  | [] => [a]
  | b :: t => if le a b then a :: b :: t else b :: insertSorted le a t

/-- Structural insertion sort (used so that concrete evaluation reduces
inside the kernel). -/
def insertionSortB (le : α → α → Bool) : List α → List α
  | [] => []
  | a :: t => insertSorted le a (insertionSortB le t)

/-- Modelled from the spec: the unsorted row of `(distance, index)` pairs
from point `i` to every other point of the set. -/
def neighborRow (X : List (List ℕ)) (p? : Option ℕ) (i : ℕ) : List (ℕ × ℕ) :=
  ((List.range X.length).filter (fun j => decide ¬(j = i))).map
    (fun j => (manhattanDist p? (X.getD i []) (X.getD j []), j))

/-- Modelled from the spec: the full-mode DistanceTable — for every point,
the `mk` nearest `(distance, index)` pairs in ascending order, ties broken
by index. -/
def fullTable (X : List (List ℕ)) (p? : Option ℕ) (mk : ℕ) : List (List (ℕ × ℕ)) :=
  (List.range X.length).map (fun i => (insertionSortB pairLE (neighborRow X p? i)).take mk)

/-- The multiset (as a list) of all ordered non-self pair distances of the
point set. -/
def allPairDistances (X : List (List ℕ)) (p? : Option ℕ) : List ℕ :=
  (List.range X.length).flatMap (fun i => (neighborRow X p? i).map Prod.fst)

/-- Modelled from the spec: the condensed-mode DistanceHistogram — the
count of ordered non-self pairs at each distance value up to `dmx`. -/
def histogram (X : List (List ℕ)) (p? : Option ℕ) (dmx : ℕ) : List ℕ :=
  (List.range (dmx + 1)).map (fun t => (allPairDistances X p?).count t)

/-- Modelled from the spec: the stored distance state — either the
full-mode per-point table or the condensed-mode histogram with its
distance bound. -/
inductive DistState where
  | full (table : List (List (ℕ × ℕ)))
  | condensedH (dmx : ℕ) (hist : List ℕ)
deriving DecidableEq

/-- Modelled from the spec: the estimator instance — the immutable point
set plus the mutable derived state (distance storage, most recent fitted
`intrinsic_dim`, most recent neighbour rank used by a fit). -/
structure IdDiscrete where
  X : List (List ℕ)
  distances : Option DistState
  intrinsic_dim : Option ℚ
  kFit : Option ℕ
deriving DecidableEq

/-- A freshly constructed estimator instance: no derived state yet. -/
def IdDiscrete.init (X : List (List ℕ)) : IdDiscrete :=
  { X := X, distances := none, intrinsic_dim := none, kFit := none }

/-- Modelled from the spec: `compute_distances(metric, period, condensed,
d_max, maxk)` — builds the condensed histogram up to `d_max`, or the full
table clamped to `min maxk (N-1)` entries per point, surfacing a
warning-class condition (not an error) when the clamp fires, and a
ConfigurationError when `maxk = 0` in full mode.  Any previously stored
distance state is overwritten. -/
def compute_distances (st : IdDiscrete) (m : Metric) (p? : Option ℕ)
    (condensed : Bool) (dmx maxk : ℕ) : Except Err (IdDiscrete × List Warning) :=
  match m with
  | .manhattan =>
    if condensed then
      Except.ok ({ st with distances := some (.condensedH dmx (histogram st.X p? dmx)) }, [])
    else if maxk = 0 then Except.error Err.configurationError
    else
      let N := st.X.length
      Except.ok ({ st with distances := some (.full (fullTable st.X p? (min maxk (N - 1)))) },
        if N - 1 < maxk then [Warning.maxkClamped] else [])

/-- The list of pair distances represented by a stored distance state: the
concatenated full-mode rows, or the expansion of the condensed
histogram. -/
def distList : DistState → List ℕ
  | .full table => table.flatMap (fun row => row.map Prod.fst)
  | .condensedH dmx hist =>
      (List.range (dmx + 1)).flatMap (fun t => List.replicate (hist.getD t 0) t)

/-- Largest distance represented in a distance list (0 for the empty
list). -/
def listMax (D : List ℕ) : ℕ := D.foldr max 0

/-- Cumulative pair count: the number of represented pair distances that
are at most `r`. -/
def cumD (D : List ℕ) (r : ℕ) : ℕ := (D.filter (fun t => decide (t ≤ r))).length

/-- Number of occupied distance shells with distance value at most `r`. -/
def shellsUpTo (D : List ℕ) (r : ℕ) : ℕ :=
  ((List.range (r + 1)).filter (fun t => decide (0 < D.count t))).length

/-- Least value in `{0, …, B}` satisfying a predicate, if any. -/
def findLeast (B : ℕ) (p : ℕ → Bool) : Option ℕ := (List.range (B + 1)).find? p

/-- Modelled from the spec: the boundary dimension value used as the
documented fallback of a numerically degenerate fit. -/
def fallbackDim : ℚ := 1 / 1000000

/-- Modelled from the spec: the binomial maximum-likelihood dimension fit
from the counts at the inner and outer scales.  The 1-D root-find over the
discrete ball-volume ratios has no closed form and is modelled as a
deterministic rational surrogate; a zero inner count falls back to the
boundary dimension value instead of raising. -/
def binomialFit (nIn nOut : ℕ) (q : ℚ) : ℚ :=
  if nIn = 0 then fallbackDim
  else ((nOut : ℚ) - nIn) / ((1 - q) * nOut)

/-- Inner radius derived from the outer radius by the scale factor `q`. -/
def scaleDown (q : ℚ) (r : ℕ) : ℕ := (⌊q * (r : ℚ)⌋).toNat

/-- Modelled from the spec: the fixed-`k` binomial estimator core.  The
outer radius is the least one whose aggregate neighbour count reaches the
expected total `k·N` (or, with `shell` set, whose number of occupied
shells reaches `k`); the inner radius follows from the scale factor `q`.
A scale with no neighbours is a numeric degeneracy. -/
def fitDiscreteKE (D : List ℕ) (N k : ℕ) (q : ℚ) (shell : Bool) : Except Err ℚ :=
  let B := listMax D
  let rOut? := if shell then findLeast B (fun r => decide (k ≤ shellsUpTo D r))
               else findLeast B (fun r => decide (k * N ≤ cumD D r))
  match rOut? with
  | none => Except.error Err.numericDegeneracy
  | some rOut =>
    let nOut := cumD D rOut
    if nOut = 0 then Except.error Err.numericDegeneracy
    else Except.ok (binomialFit (cumD D (scaleDown q rOut)) nOut q)

/-- The `intrinsic_dim` value written by `compute_id_binomial_k_discrete`:
the estimator core with the documented degeneracy fallback absorbed. -/
def kFitValue (ds : DistState) (N k : ℕ) (q : ℚ) (shell : Bool) : ℚ :=
  ((fitDiscreteKE (distList ds) N k q shell).toOption).getD fallbackDim

/-- Modelled from the spec: `compute_id_binomial_k_discrete(k, ratio,
shell)` — fails with StateError when distances were never computed,
otherwise overwrites `intrinsic_dim` with the fit value (a deterministic
function of the stored distance state and the parameters). -/
def compute_id_binomial_k_discrete (st : IdDiscrete) (k : ℕ) (q : ℚ) (shell : Bool) :
    Except Err IdDiscrete :=
  match st.distances with
  | none => Except.error Err.stateError
  | some ds =>
      Except.ok { st with
        intrinsic_dim := some (kFitValue ds st.X.length k q shell)
        kFit := some k }

/-- Modelled from the spec: the string-valued `method` selector of the
binomial estimators as a closed variant. -/
inductive Method where
  | mle
  | bayes
deriving DecidableEq

/-- Modelled from the spec: the Bayesian posterior-mean variant as a
deterministic adjustment of the maximum-likelihood surrogate. -/
def methodAdjust (mth : Method) (v : ℚ) : ℚ :=
  match mth with
  | .mle => v
  | .bayes => v + 1 / 100

/-- Distance list restricted to a subset of the points: full-mode rows
with an index outside the subset are dropped; the condensed state holds no
per-point identity, so the subset is ignored there. -/
def distListSub (ds : DistState) (sub : Option (List ℕ)) : List ℕ :=
  match ds, sub with
  | .full table, some s =>
      (table.enum.filter (fun pr => decide (pr.1 ∈ s))).flatMap (fun pr => pr.2.map Prod.fst)
  | d, _ => distList d

/-- The `intrinsic_dim` value written by `compute_id_binomial_lk`. -/
def lkFitValue (ds : DistState) (lk ln : ℕ) (mth : Method) (sub : Option (List ℕ)) : ℚ :=
  let D := distListSub ds sub
  let nOut := cumD D lk
  if nOut = 0 then fallbackDim
  else methodAdjust mth (binomialFit (cumD D ln) nOut (if lk = 0 then 0 else (ln : ℚ) / (lk : ℚ)))

/-- Modelled from the spec: `compute_id_binomial_lk(lk, ln, method,
subset)` — the binomial fit with both radii fixed explicitly; fails with
StateError when distances were never computed, otherwise overwrites
`intrinsic_dim` (last-fit-wins). -/
def compute_id_binomial_lk (st : IdDiscrete) (lk ln : ℕ) (mth : Method)
    (sub : Option (List ℕ)) : Except Err IdDiscrete :=
  match st.distances with
  | none => Except.error Err.stateError
  | some ds => Except.ok { st with intrinsic_dim := some (lkFitValue ds lk ln mth sub) }

/-- Modelled from the spec: the combinatorial volume of a discrete ball of
radius `r` in `dims` dimensions, as a positive surrogate (its value
cancels in the normalised density outputs). -/
def ballVolume (dims r : ℕ) : ℕ := (r + 1) ^ dims

/-- Per-point raw neighbour counts of the full-mode density accessor: for
each point, the number of stored neighbours within the distance of its
`kk`-th stored neighbour. -/
def localCountsRawN (table : List (List (ℕ × ℕ))) (kk : ℕ) : List ℕ :=
  table.map (fun row =>
    (row.filter (fun pr => decide (pr.1 ≤ (row.map Prod.fst).getD (kk - 1) 0))).length)

/-- Per-point raw density estimates of the full-mode density accessor: the
raw neighbour count over the ball volume at the same radius. -/
def localDensRaw (table : List (List (ℕ × ℕ))) (kk dims : ℕ) : List ℚ :=
  table.map (fun row =>
    ((row.filter (fun pr => decide (pr.1 ≤ (row.map Prod.fst).getD (kk - 1) 0))).length : ℚ) /
      (ballVolume dims ((row.map Prod.fst).getD (kk - 1) 0) : ℚ))

/-- A list of naturals viewed as rationals. -/
def castListQ : List ℕ → List ℚ
  | [] => []
  | n :: t => (n : ℚ) :: castListQ t

/-- Arithmetic mean of a list of rationals (0 for the empty list). -/
def meanQ (L : List ℚ) : ℚ := L.sum / (L.length : ℚ)

/-- A list rescaled by its own mean, so that the observed values are
expressed relative to the dataset-level uniform expectation. -/
def normalizeQ (L : List ℚ) : List ℚ := L.map (fun x => x / meanQ L)

/-- The two output shapes of the density accessor: per-point arrays in
full mode, dataset-level scalars in condensed mode. -/
inductive DensityOut where
  | fullOut (counts densities : List ℚ)
  | condOut (meanCount meanDensity : ℚ)
deriving DecidableEq

/-- Modelled from the spec: `compute_local_density(full_output)` — fails
with ConfigurationError when distances were never computed; in full mode
returns the per-point neighbour counts and density ratios, each normalised
against the dataset-level uniform expectation; in condensed mode returns
two dataset-level scalar means.  The boolean flag is accepted as in the
contract; the output shape is decided by the storage mode. -/
def compute_local_density (st : IdDiscrete) (fullOutput : Bool) : Except Err DensityOut :=
  match st.distances with
  | none => Except.error Err.configurationError
  | some (.full table) =>
      let kk := st.kFit.getD 1
      let dims := (st.X.headD []).length
      Except.ok (.fullOut
        (normalizeQ (castListQ (localCountsRawN table kk)))
        (normalizeQ (localDensRaw table kk dims)))
  | some (.condensedH dmx hist) =>
      let N := st.X.length
      Except.ok (.condOut
        ((hist.sum : ℚ) / ((N : ℚ) * (N : ℚ) * ((dmx : ℚ) + 1)))
        ((hist.sum : ℚ) / ((N : ℚ) * (N : ℚ) * (ballVolume (st.X.headD []).length dmx : ℚ))))

/-- Empirical probability of observing a pair at distance `t`. -/
def empProb (D : List ℕ) (t : ℕ) : ℚ := (D.count t : ℚ) / (D.length : ℚ)

/-- Modelled from the spec: the theoretical point-mass probability at
distance `t` under the fitted binomial model, as a normalised surrogate
law parameterised by the fitted dimension. -/
def theoProb (d : ℚ) (B t : ℕ) : ℚ :=
  (1 + max d 0 * (t : ℚ)) / ((List.range (B + 1)).map (fun u => 1 + max d 0 * (u : ℚ))).sum

/-- Partial sums of a distance-indexed probability, for the cumulative
variant of the comparison. -/
def cumProb (f : ℕ → ℚ) (t : ℕ) : ℚ := ((List.range (t + 1)).map f).sum

/-- Modelled from the spec: the per-bin Kolmogorov-Smirnov-class
statistics comparing the empirical and the theoretical laws, on point-mass
probabilities or (with `cdfB`) on cumulative ones. -/
def validationStats (D : List ℕ) (d : ℚ) (cdfB : Bool) : List ℚ :=
  (List.range (listMax D + 1)).map (fun t =>
    if cdfB then |cumProb (empProb D) t - cumProb (theoProb d (listMax D)) t|
    else |empProb D t - theoProb d (listMax D) t|)

/-- The aggregate goodness-of-fit statistic: the total discrepancy over
the bins. -/
def aggStat (D : List ℕ) (d : ℚ) (cdfB : Bool) : ℚ := (validationStats D d cdfB).sum

/-- Modelled from the spec: the map from the aggregate statistic to the
two-sided p-value, a surrogate that is 1 at a perfect fit and decreases
with the discrepancy while staying positive. -/
def pValue (s : ℚ) : ℚ := 1 / (1 + s)

/-- The validator core, taking the fitted dimension explicitly. -/
def validationCore (d : ℚ) (D : List ℕ) (cdfB : Bool) : List ℚ × ℚ :=
  (validationStats D d cdfB, pValue (aggStat D d cdfB))

/-- Modelled from the spec: `model_validation_full(cdf)` — fails with
StateError when no fit was ever performed (or no distances exist),
otherwise compares the stored distances against the model implied by the
most recently fitted `intrinsic_dim`. -/
def model_validation_full (st : IdDiscrete) (cdfB : Bool) : Except Err (List ℚ × ℚ) :=
  match st.intrinsic_dim, st.distances with
  | some d, some ds => Except.ok (validationCore d (distList ds) cdfB)
  | none, _ => Except.error Err.stateError
  | _, none => Except.error Err.stateError

/-- Modelled from the spec: the per-scale estimator invoked by
`return_id_scaling_k`: the fixed-`k` binomial fit at the default scale
factor one half. -/
def fitAtK (st : IdDiscrete) (k : ℕ) : Except Err ℚ :=
  match st.distances with
  | none => Except.error Err.stateError
  | some ds => fitDiscreteKE (distList ds) st.X.length k (1 / 2) false

/-- Modelled from the spec: the per-scale estimator invoked by
`return_id_scaling`: the binomial fit with outer radius `r` and inner
radius `r / 2`; a radius with no neighbours is a numeric degeneracy. -/
def fitAtRadius (st : IdDiscrete) (r : ℕ) (mth : Method) : Except Err ℚ :=
  match st.distances with
  | none => Except.error Err.stateError
  | some ds =>
      let D := distList ds
      if cumD D r = 0 then Except.error Err.numericDegeneracy
      else Except.ok (methodAdjust mth (binomialFit (cumD D (r / 2)) (cumD D r) (1 / 2)))

/-- Modelled from the spec: the per-scale alternative estimator of
`return_id_fit` (direct likelihood on the sorted distances), as a
deterministic surrogate of the neighbour counts around the radius. -/
def fitDirect (st : IdDiscrete) (r : ℕ) : Except Err ℚ :=
  match st.distances with
  | none => Except.error Err.stateError
  | some ds =>
      let D := distList ds
      if cumD D r = 0 then Except.error Err.numericDegeneracy
      else Except.ok (((cumD D r : ℚ) - (cumD D (r - 1) : ℚ)) * (r : ℚ) / (cumD D r : ℚ))

/-- Modelled from the spec: the per-scale continuum-approximation
estimator of `return_id_fit_continuum`, as a deterministic surrogate of
the count ratio at nested radii. -/
def fitContinuum (st : IdDiscrete) (r : ℕ) : Except Err ℚ :=
  match st.distances with
  | none => Except.error Err.stateError
  | some ds =>
      let D := distList ds
      if cumD D r = 0 then Except.error Err.numericDegeneracy
      else Except.ok ((cumD D r : ℚ) / ((cumD D (r / 2) : ℚ) + 1))

/-- Standard-error surrogate attached to each sweep entry. -/
def errSurrogate (v : ℚ) : ℚ := v / 10

/-- Modelled from the spec: `return_id_scaling(radii, method, plot)` — one
entry per requested radius, in input order; a failed scale point is
recorded as the sentinel `none` and the sweep continues. -/
def return_id_scaling (st : IdDiscrete) (radii : List ℕ) (mth : Method) :
    List (Option ℚ) × List (Option ℚ) :=
  (radii.map (fun r => (fitAtRadius st r mth).toOption),
   radii.map (fun r => ((fitAtRadius st r mth).toOption).map errSurrogate))

/-- Modelled from the spec: `return_id_scaling_k(ks, plot)` — one entry
per requested neighbour rank, in input order, with the same sentinel
discipline. -/
def return_id_scaling_k (st : IdDiscrete) (ks : List ℕ) :
    List (Option ℚ) × List (Option ℚ) × List ℕ :=
  (ks.map (fun k => (fitAtK st k).toOption),
   ks.map (fun k => ((fitAtK st k).toOption).map errSurrogate),
   ks)

/-- Modelled from the spec: `return_id_fit(rs, plot)` — the alternative
direct estimator swept over the requested radii, in input order, with the
same sentinel discipline. -/
def return_id_fit (st : IdDiscrete) (rs : List ℕ) :
    List (Option ℚ) × List (Option ℚ) × List ℕ :=
  (rs.map (fun r => (fitDirect st r).toOption),
   rs.map (fun r => ((fitDirect st r).toOption).map errSurrogate),
   rs)

/-- Modelled from the spec: `return_id_fit_continuum(rs, plot)` — the
continuum-approximation estimator swept over the requested radii, in input
order, with the same sentinel discipline. -/
def return_id_fit_continuum (st : IdDiscrete) (rs : List ℕ) :
    List (Option ℚ) × List (Option ℚ) :=
  (rs.map (fun r => (fitContinuum st r).toOption),
   rs.map (fun r => ((fitContinuum st r).toOption).map errSurrogate))

/-- Auxiliary point set used by concrete instantiations: three points on a
periodic two-dimensional lattice. -/
def Xw3 : List (List ℕ) := [[0, 0], [1, 0], [0, 2]]

/-- Auxiliary estimator state used by concrete instantiations: two points
with a stored condensed histogram. -/
def stw2 : IdDiscrete :=
  { X := [[0], [1]], distances := some (.condensedH 1 [0, 2]),
    intrinsic_dim := none, kFit := none }

/-- Auxiliary estimator state used by concrete instantiations: two
coincident points with a stored condensed histogram and a fitted
dimension. -/
def stwFit : IdDiscrete :=
  { X := [[0], [0]], distances := some (.condensedH 0 [2]),
    intrinsic_dim := some 5, kFit := none }

theorem insertSorted_perm (le : α → α → Bool) (a : α) (l : List α) :
    List.Perm (insertSorted le a l) (a :: l) := by
  induction l with
  | nil => exact List.Perm.refl _
  | cons b t ih =>
    rw [insertSorted]
    by_cases hb : le a b
    · simp [hb]
    · simp only [hb, if_false, Bool.false_eq_true]
      exact (ih.cons b).trans (List.Perm.swap a b t)

theorem insertionSortB_perm (le : α → α → Bool) (l : List α) :
    List.Perm (insertionSortB le l) l := by
  induction l with
  | nil => exact List.Perm.refl _
  | cons a t ih =>
    rw [insertionSortB]
    exact (insertSorted_perm le a (insertionSortB le t)).trans (ih.cons a)

theorem perm_flatMap_congr (l : List α) (f g : α → List β)
    (h : ∀ a ∈ l, List.Perm (f a) (g a)) : List.Perm (l.flatMap f) (l.flatMap g) := by
  induction l with
  | nil => exact List.Perm.refl _
  | cons x t ih =>
    rw [List.flatMap_cons, List.flatMap_cons]
    exact (h x (by simp)).append (ih (fun a ha => h a (by simp [ha])))

theorem count_flatMap (l : List α) (f : α → List ℕ) (a : ℕ) :
    (l.flatMap f).count a = (l.map (fun x => (f x).count a)).sum := by
  induction l with
  | nil => rfl
  | cons x t ih =>
    rw [List.flatMap_cons, List.count_append, List.map_cons, List.sum_cons, ih]

theorem flatMap_of_map (l : List α) (f : α → β) (g : β → List γ) :
    (l.map f).flatMap g = l.flatMap (fun x => g (f x)) := by
  induction l with
  | nil => rfl
  | cons x t ih => simp [List.flatMap_cons, ih]

theorem lengthFlatMapSum (l : List α) (f : α → List β) :
    (l.flatMap f).length = (l.map (fun x => (f x).length)).sum := by
  induction l with
  | nil => rfl
  | cons x t ih => simp [List.flatMap_cons, ih]

theorem sum_map_add (l : List α) (f g : α → ℕ) :
    (l.map (fun t => f t + g t)).sum = (l.map f).sum + (l.map g).sum := by
  induction l with
  | nil => rfl
  | cons x t ih => simp [ih]; omega

theorem count_replicate' (a b n : ℕ) :
    (List.replicate n b).count a = if a = b then n else 0 := by
  rcases eq_or_ne a b with h | h
  · subst h; simp [List.count_replicate]
  · simp [List.count_replicate, h, Ne.symm h]

theorem sum_range_ite (n a : ℕ) (h : ℕ → ℕ) :
    ((List.range n).map (fun t => if a = t then h t else 0)).sum
      = if a < n then h a else 0 := by
  induction n with
  | zero => simp
  | succ m ih =>
    rw [List.range_succ, List.map_append, List.sum_append, ih]
    simp only [List.map_cons, List.map_nil, List.sum_cons, List.sum_nil]
    by_cases h2 : a = m
    · subst h2; simp
    · by_cases h1 : a < m
      · have hlt : a < m + 1 := Nat.lt_succ_of_lt h1
        simp [h1, h2, hlt]
      · have hge : ¬ a < m + 1 := by omega
        simp [h1, h2, hge]

theorem sum_range_count (D : List ℕ) (n : ℕ) :
    ((List.range n).map (fun t => D.count t)).sum
      = (D.filter (fun t => decide (t < n))).length := by
  induction D with
  | nil => simp
  | cons x t ih =>
    have hc : ∀ u, (x :: t).count u = t.count u + if x = u then 1 else 0 := by
      intro u
      rw [List.count_cons]
      by_cases hxu : x = u <;> simp [hxu]
    calc ((List.range n).map (fun u => (x :: t).count u)).sum
        = ((List.range n).map (fun u => t.count u + if x = u then 1 else 0)).sum := by
          simp only [hc]
      _ = ((List.range n).map (fun u => t.count u)).sum
            + ((List.range n).map (fun u => if x = u then 1 else 0)).sum :=
          sum_map_add _ _ _
      _ = (t.filter (fun u => decide (u < n))).length + (if x < n then 1 else 0) := by
          rw [ih]
          congr 1
          have := sum_range_ite n x (fun _ => 1)
          simpa using this
      _ = ((x :: t).filter (fun u => decide (u < n))).length := by
          rw [List.filter_cons]
          by_cases hx : x < n <;> simp [hx]

theorem length_filter_range_ne (N i : ℕ) (h : i < N) :
    ((List.range N).filter (fun j => decide ¬(j = i))).length = N - 1 := by
  induction N with
  | zero => exact absurd h (Nat.not_lt_zero i)
  | succ m ih =>
    rw [List.range_succ, List.filter_append]
    rcases Nat.lt_or_ge i m with him | him
    · have hmi : ¬(m = i) := by omega
      rw [List.length_append, ih him]
      simp [List.filter_cons, hmi]
      omega
    · have hieq : i = m := by omega
      have hall : (List.range m).filter (fun j => decide ¬(j = i)) = List.range m :=
        List.filter_eq_self.mpr (fun j hj => by
          simp only [decide_eq_true_eq]
          have := List.mem_range.mp hj
          omega)
      have hmi : decide ¬(m = i) = false := by
        subst hieq
        simp
      rw [List.length_append, hall]
      simp [List.filter_cons, hmi]
      omega

theorem getD_map_range (n t : ℕ) (f : ℕ → ℕ) :
    ((List.range n).map f).getD t 0 = if t < n then f t else 0 := by
  rcases Nat.lt_or_ge t n with h | h
  · rw [List.getD_eq_getElem?_getD, List.getElem?_map,
      List.getElem?_eq_getElem (by simpa using h)]
    simp [h]
  · rw [List.getD_eq_getElem?_getD, List.getElem?_map,
      List.getElem?_eq_none (by simpa using h)]
    simp [Nat.not_lt.mpr h]

theorem castListQ_length (l : List ℕ) : (castListQ l).length = l.length := by
  induction l with
  | nil => rfl
  | cons n t ih => simp [castListQ, ih]

theorem castListQ_sum (l : List ℕ) : (castListQ l).sum = (l.sum : ℚ) := by
  induction l with
  | nil => rfl
  | cons n t ih => simp [castListQ, ih]

theorem count_distList_hist (X : List (List ℕ)) (p? : Option ℕ) (dmx a : ℕ) :
    (distList (.condensedH dmx (histogram X p? dmx))).count a
      = if a < dmx + 1 then (allPairDistances X p?).count a else 0 := by
  rw [distList, count_flatMap]
  have h1 : ∀ t ∈ List.range (dmx + 1),
      (List.replicate ((histogram X p? dmx).getD t 0) t).count a
        = if a = t then (allPairDistances X p?).count t else 0 := by
    intro t ht
    have ht' : t < dmx + 1 := List.mem_range.mp ht
    rw [histogram, getD_map_range, if_pos ht', count_replicate']
  rw [List.map_congr_left h1, sum_range_ite]

theorem distList_condensed_perm (X : List (List ℕ)) (p? : Option ℕ) (dmx : ℕ)
    (h : ∀ x ∈ allPairDistances X p?, x ≤ dmx) :
    List.Perm (distList (.condensedH dmx (histogram X p? dmx))) (allPairDistances X p?) := by
  rw [List.perm_iff_count]
  intro a
  rw [count_distList_hist]
  rcases Nat.lt_or_ge a (dmx + 1) with hc | hc
  · simp [hc]
  · have h0 : (allPairDistances X p?).count a = 0 :=
      List.count_eq_zero.mpr (fun hmem => by have := h a hmem; omega)
    simp [Nat.not_lt.mpr hc, h0]

theorem distList_fullTable_perm (X : List (List ℕ)) (p? : Option ℕ) (mk : ℕ)
    (h : X.length - 1 ≤ mk) :
    List.Perm (distList (.full (fullTable X p? mk))) (allPairDistances X p?) := by
  rw [distList, fullTable, allPairDistances, flatMap_of_map]
  apply perm_flatMap_congr
  intro i hi
  have hi' : i < X.length := List.mem_range.mp hi
  have hlen : (insertionSortB pairLE (neighborRow X p? i)).length = X.length - 1 := by
    rw [(insertionSortB_perm pairLE (neighborRow X p? i)).length_eq, neighborRow,
      List.length_map, length_filter_range_ne _ _ hi']
  rw [List.take_of_length_le (by rw [hlen]; exact h)]
  exact (insertionSortB_perm pairLE (neighborRow X p? i)).map Prod.fst

theorem length_allPairDistances (X : List (List ℕ)) (p? : Option ℕ) :
    (allPairDistances X p?).length = X.length * (X.length - 1) := by
  rw [allPairDistances, lengthFlatMapSum]
  have h1 : ∀ i ∈ List.range X.length,
      ((neighborRow X p? i).map Prod.fst).length = X.length - 1 := by
    intro i hi
    rw [List.length_map, neighborRow, List.length_map,
      length_filter_range_ne _ _ (List.mem_range.mp hi)]
  rw [List.map_congr_left h1]
  simp [List.map_const', List.sum_replicate, smul_eq_mul]

theorem histogram_sum (X : List (List ℕ)) (p? : Option ℕ) (dmx : ℕ)
    (h : ∀ x ∈ allPairDistances X p?, x ≤ dmx) :
    (histogram X p? dmx).sum = X.length * (X.length - 1) := by
  rw [histogram, sum_range_count]
  rw [List.filter_eq_self.mpr (fun x hx => by
    simp only [decide_eq_true_eq]
    have := h x hx
    omega)]
  exact length_allPairDistances X p?

theorem listMax_perm {D₁ D₂ : List ℕ} (h : List.Perm D₁ D₂) : listMax D₁ = listMax D₂ := by
  induction h with
  | nil => rfl
  | cons x _ ih => simp only [listMax, List.foldr_cons] at *; rw [ih]
  | swap x y l =>
      simp only [listMax, List.foldr_cons]
      rw [max_left_comm]
  | trans _ _ ih1 ih2 => exact ih1.trans ih2

theorem cumD_perm {D₁ D₂ : List ℕ} (h : List.Perm D₁ D₂) (r : ℕ) :
    cumD D₁ r = cumD D₂ r :=
  (h.filter (fun t => decide (t ≤ r))).length_eq

theorem shellsUpTo_perm {D₁ D₂ : List ℕ} (h : List.Perm D₁ D₂) (r : ℕ) :
    shellsUpTo D₁ r = shellsUpTo D₂ r := by
  have hc : ∀ t, D₁.count t = D₂.count t := h.count_eq
  simp only [shellsUpTo, hc]

theorem fitDiscreteKE_perm {D₁ D₂ : List ℕ} (h : List.Perm D₁ D₂) (N k : ℕ) (q : ℚ)
    (shell : Bool) : fitDiscreteKE D₁ N k q shell = fitDiscreteKE D₂ N k q shell := by
  have hB : listMax D₁ = listMax D₂ := listMax_perm h
  have hcum : ∀ r, cumD D₁ r = cumD D₂ r := cumD_perm h
  have hsh : ∀ r, shellsUpTo D₁ r = shellsUpTo D₂ r := shellsUpTo_perm h
  simp only [fitDiscreteKE, hB, hcum, hsh]

theorem sum_map_div (l : List ℚ) (c : ℚ) : (l.map (fun x => x / c)).sum = l.sum / c := by
  induction l with
  | nil => simp
  | cons x t ih => simp [ih, add_div]

theorem meanQ_normalizeQ (L : List ℚ) (h : L.sum ≠ 0) : meanQ (normalizeQ L) = 1 := by
  have hne : L ≠ [] := by rintro rfl; simp at h
  have hlen0 : L.length ≠ 0 := fun hh => hne (List.length_eq_zero.mp hh)
  have hlen : (L.length : ℚ) ≠ 0 := Nat.cast_ne_zero.mpr hlen0
  rw [normalizeQ, meanQ, sum_map_div, List.length_map, meanQ]
  field_simp

theorem coordDelta_period_le (p x y : ℕ) : 2 * coordDelta (some p) x y ≤ p := by
  rw [coordDelta, natGap]
  omega

theorem manhattan_period_bound (p : ℕ) (a b : List ℕ) :
    2 * manhattanDist (some p) a b ≤ a.length * p := by
  induction a generalizing b with
  | nil => simp [manhattanDist]
  | cons x ta ih =>
    cases b with
    | nil => simp [manhattanDist]
    | cons y tb =>
      have h1 : 2 * coordDelta (some p) x y ≤ p := coordDelta_period_le p x y
      have h2 := ih tb
      rw [manhattanDist] at h2 ⊢
      simp only [List.zipWith_cons_cons, List.sum_cons, List.length_cons]
      calc 2 * (coordDelta (some p) x y + (List.zipWith (coordDelta (some p)) ta tb).sum)
          = 2 * coordDelta (some p) x y
            + 2 * (List.zipWith (coordDelta (some p)) ta tb).sum := by ring
        _ ≤ p + ta.length * p := Nat.add_le_add h1 h2
        _ = (ta.length + 1) * p := by ring

theorem sortedRow_length (X : List (List ℕ)) (p? : Option ℕ) (i : ℕ) (h : i < X.length) :
    (insertionSortB pairLE (neighborRow X p? i)).length = X.length - 1 := by
  rw [(insertionSortB_perm pairLE (neighborRow X p? i)).length_eq, neighborRow,
    List.length_map, length_filter_range_ne _ _ h]

theorem aggStat_nonneg (D : List ℕ) (d : ℚ) (cdfB : Bool) : 0 ≤ aggStat D d cdfB := by
  apply List.sum_nonneg
  intro x hx
  rw [validationStats] at hx
  obtain ⟨t, _, rfl⟩ := List.mem_map.mp hx
  split <;> exact abs_nonneg _

theorem localDensRaw_nonneg (table : List (List (ℕ × ℕ))) (kk dims : ℕ) :
    ∀ x ∈ localDensRaw table kk dims, 0 ≤ x := by
  intro x hx
  rw [localDensRaw] at hx
  obtain ⟨row, _, rfl⟩ := List.mem_map.mp hx
  positivity

theorem localDensRaw_sum_ne (table : List (List (ℕ × ℕ))) (kk dims : ℕ)
    (h : (localCountsRawN table kk).sum ≠ 0) : (localDensRaw table kk dims).sum ≠ 0 := by
  have hex : ∃ n ∈ localCountsRawN table kk, n ≠ 0 := by
    by_contra hall
    push_neg at hall
    exact h (List.sum_eq_zero hall)
  obtain ⟨n, hn, hn0⟩ := hex
  obtain ⟨row, hrow, hneq⟩ := List.mem_map.mp hn
  have hmem : ((row.filter
        (fun pr => decide (pr.1 ≤ (row.map Prod.fst).getD (kk - 1) 0))).length : ℚ)
        / (ballVolume dims ((row.map Prod.fst).getD (kk - 1) 0) : ℚ)
      ∈ localDensRaw table kk dims := by
    rw [localDensRaw]
    exact List.mem_map.mpr ⟨row, hrow, rfl⟩
  have hlen0 : (row.filter
      (fun pr => decide (pr.1 ≤ (row.map Prod.fst).getD (kk - 1) 0))).length ≠ 0 := by
    rw [hneq]; exact hn0
  have hpos : 0 < ((row.filter
        (fun pr => decide (pr.1 ≤ (row.map Prod.fst).getD (kk - 1) 0))).length : ℚ)
        / (ballVolume dims ((row.map Prod.fst).getD (kk - 1) 0) : ℚ) := by
    apply div_pos
    · exact_mod_cast Nat.pos_of_ne_zero hlen0
    · have : 0 < ballVolume dims ((row.map Prod.fst).getD (kk - 1) 0) :=
        Nat.pos_pow_of_pos dims (Nat.succ_pos _)
      exact_mod_cast this
  have hle := List.single_le_sum (localDensRaw_nonneg table kk dims) _ hmem
  exact (lt_of_lt_of_le hpos hle).ne'

/-- C5: with a period `P`, each per-coordinate delta follows the
minimum-image convention `min (gap, P - gap)`, and consequently the
periodic Manhattan distance of any two points in `d` dimensions is at most
`d·P/2` (stated multiplicatively as `2·dist ≤ d·P`). -/
theorem c5_minimum_image_bound (p : ℕ) (a b : List ℕ) :
    (∀ x y : ℕ, coordDelta (some p) x y = min (natGap x y) (p - natGap x y)) ∧
    2 * manhattanDist (some p) a b ≤ a.length * p :=
  ⟨fun _ _ => rfl, manhattan_period_bound p a b⟩

/-- C2: each sweep function of the scaling-curve driver returns exactly
one intrinsic-dimension entry per requested scale value, and the entry at
every index is the estimate at the scale value at the same index of the
input sequence. -/
theorem c2_sweep_arity_order (st : IdDiscrete) (radii ks rs cs : List ℕ)
    (mth : Method) (i : ℕ) :
    ((return_id_scaling st radii mth).1.length = radii.length ∧
      (return_id_scaling st radii mth).1[i]?
        = (radii[i]?).map (fun r => (fitAtRadius st r mth).toOption)) ∧
    ((return_id_scaling_k st ks).1.length = ks.length ∧
      (return_id_scaling_k st ks).1[i]?
        = (ks[i]?).map (fun k => (fitAtK st k).toOption)) ∧
    ((return_id_fit st rs).1.length = rs.length ∧
      (return_id_fit st rs).1[i]?
        = (rs[i]?).map (fun r => (fitDirect st r).toOption)) ∧
    ((return_id_fit_continuum st cs).1.length = cs.length ∧
      (return_id_fit_continuum st cs).1[i]?
        = (cs[i]?).map (fun r => (fitContinuum st r).toOption)) := by
  refine ⟨⟨?_, ?_⟩, ⟨?_, ?_⟩, ⟨?_, ?_⟩, ⟨?_, ?_⟩⟩ <;>
    simp [return_id_scaling, return_id_scaling_k, return_id_fit,
      return_id_fit_continuum, List.getElem?_map]

/-- C4: a failure of the per-scale estimator at one scale value never
raises out of a sweep: the sweep still has one entry per scale, the entry
at the failed index is the sentinel `none`, and every other index is still
evaluated and recorded; the same discipline holds for all four sweep
functions. -/
theorem c4_sweep_failure_sentinel (st : IdDiscrete) (mth : Method) (scales : List ℕ)
    (i r : ℕ) (hir : scales[i]? = some r) :
    ((return_id_scaling st scales mth).1.length = scales.length ∧
      ((fitAtRadius st r mth).toOption = none →
        (return_id_scaling st scales mth).1[i]? = some none) ∧
      (∀ (j r' : ℕ), scales[j]? = some r' →
        (return_id_scaling st scales mth).1[j]?
          = some ((fitAtRadius st r' mth).toOption))) ∧
    ((return_id_scaling_k st scales).1.length = scales.length ∧
      ((fitAtK st r).toOption = none →
        (return_id_scaling_k st scales).1[i]? = some none) ∧
      (∀ (j r' : ℕ), scales[j]? = some r' →
        (return_id_scaling_k st scales).1[j]? = some ((fitAtK st r').toOption))) ∧
    ((return_id_fit st scales).1.length = scales.length ∧
      ((fitDirect st r).toOption = none →
        (return_id_fit st scales).1[i]? = some none) ∧
      (∀ (j r' : ℕ), scales[j]? = some r' →
        (return_id_fit st scales).1[j]? = some ((fitDirect st r').toOption))) ∧
    ((return_id_fit_continuum st scales).1.length = scales.length ∧
      ((fitContinuum st r).toOption = none →
        (return_id_fit_continuum st scales).1[i]? = some none) ∧
      (∀ (j r' : ℕ), scales[j]? = some r' →
        (return_id_fit_continuum st scales).1[j]?
          = some ((fitContinuum st r').toOption))) := by
  refine ⟨⟨?_, ?_, ?_⟩, ⟨?_, ?_, ?_⟩, ⟨?_, ?_, ?_⟩, ⟨?_, ?_, ?_⟩⟩
  · simp [return_id_scaling]
  · intro hfail
    simp [return_id_scaling, List.getElem?_map, hir, hfail]
  · intro j r' hj
    simp [return_id_scaling, List.getElem?_map, hj]
  · simp [return_id_scaling_k]
  · intro hfail
    simp [return_id_scaling_k, List.getElem?_map, hir, hfail]
  · intro j r' hj
    simp [return_id_scaling_k, List.getElem?_map, hj]
  · simp [return_id_fit]
  · intro hfail
    simp [return_id_fit, List.getElem?_map, hir, hfail]
  · intro j r' hj
    simp [return_id_fit, List.getElem?_map, hj]
  · simp [return_id_fit_continuum]
  · intro hfail
    simp [return_id_fit_continuum, List.getElem?_map, hir, hfail]
  · intro j r' hj
    simp [return_id_fit_continuum, List.getElem?_map, hj]

/-- C4 witness: on a concrete two-point state, radius 0 yields zero
neighbours, so every per-scale estimator fails there; the sweeps record
the sentinel at index 0 and still evaluate the remaining scale. -/
theorem c4_sweep_failure_sentinel_witness :
    ([0, 2] : List ℕ)[0]? = some 0 ∧
    (((return_id_scaling stw2 [0, 2] Method.mle).1.length = ([0, 2] : List ℕ).length ∧
      ((fitAtRadius stw2 0 Method.mle).toOption = none →
        (return_id_scaling stw2 [0, 2] Method.mle).1[0]? = some none) ∧
      (∀ (j r' : ℕ), ([0, 2] : List ℕ)[j]? = some r' →
        (return_id_scaling stw2 [0, 2] Method.mle).1[j]?
          = some ((fitAtRadius stw2 r' Method.mle).toOption))) ∧
    ((return_id_scaling_k stw2 [0, 2]).1.length = ([0, 2] : List ℕ).length ∧
      ((fitAtK stw2 0).toOption = none →
        (return_id_scaling_k stw2 [0, 2]).1[0]? = some none) ∧
      (∀ (j r' : ℕ), ([0, 2] : List ℕ)[j]? = some r' →
        (return_id_scaling_k stw2 [0, 2]).1[j]? = some ((fitAtK stw2 r').toOption))) ∧
    ((return_id_fit stw2 [0, 2]).1.length = ([0, 2] : List ℕ).length ∧
      ((fitDirect stw2 0).toOption = none →
        (return_id_fit stw2 [0, 2]).1[0]? = some none) ∧
      (∀ (j r' : ℕ), ([0, 2] : List ℕ)[j]? = some r' →
        (return_id_fit stw2 [0, 2]).1[j]? = some ((fitDirect stw2 r').toOption))) ∧
    ((return_id_fit_continuum stw2 [0, 2]).1.length = ([0, 2] : List ℕ).length ∧
      ((fitContinuum stw2 0).toOption = none →
        (return_id_fit_continuum stw2 [0, 2]).1[0]? = some none) ∧
      (∀ (j r' : ℕ), ([0, 2] : List ℕ)[j]? = some r' →
        (return_id_fit_continuum stw2 [0, 2]).1[j]?
          = some ((fitContinuum stw2 r').toOption)))) ∧
    (fitAtRadius stw2 0 Method.mle).toOption = none :=
  ⟨rfl, c4_sweep_failure_sentinel stw2 Method.mle [0, 2] 0 0 rfl, rfl⟩

/-- C6: `compute_id_binomial_k_discrete` is idempotent — once distances
are stored, running the fit twice with identical parameters succeeds both
times, the second call leaves `intrinsic_dim` identical to the value after
the first call, and indeed leaves the whole instance state unchanged. -/
theorem c6_k_discrete_idempotent (st : IdDiscrete) (ds : DistState) (k : ℕ) (q : ℚ)
    (shell : Bool) (h : st.distances = some ds) :
    ∃ st1 st2,
      compute_id_binomial_k_discrete st k q shell = Except.ok st1 ∧
      compute_id_binomial_k_discrete st1 k q shell = Except.ok st2 ∧
      st2.intrinsic_dim = st1.intrinsic_dim ∧ st2 = st1 := by
  refine ⟨{ st with
      intrinsic_dim := some (kFitValue ds st.X.length k q shell)
      kFit := some k }, _, ?_, ?_, rfl, rfl⟩
  · simp [compute_id_binomial_k_discrete, h]
  · simp [compute_id_binomial_k_discrete, h]

/-- C6 witness: the idempotence theorem instantiated on a concrete stored
condensed state with `k = 1`, scale factor one half and `shell = false`. -/
theorem c6_k_discrete_idempotent_witness :
    ∃ st1 st2,
      compute_id_binomial_k_discrete stw2 1 (1 / 2) false = Except.ok st1 ∧
      compute_id_binomial_k_discrete st1 1 (1 / 2) false = Except.ok st2 ∧
      st2.intrinsic_dim = st1.intrinsic_dim ∧ st2 = st1 :=
  c6_k_discrete_idempotent stw2 (.condensedH 1 [0, 2]) 1 (1 / 2) false rfl

/-- C8: every successful fit overwrites `intrinsic_dim` (last-fit-wins):
after a `k`-fixed fit followed by a radius-fixed fit, the stored dimension
is the one of the second fit, a subsequent `model_validation_full` is the
validator core applied to that most recent value, and validation on an
instance that was never fitted fails with StateError. -/
theorem c8_last_fit_wins (st : IdDiscrete) (ds : DistState) (k lk ln : ℕ) (q : ℚ)
    (shell : Bool) (mth : Method) (sub : Option (List ℕ)) (cdfB : Bool)
    (h : st.distances = some ds) :
    (st.intrinsic_dim = none →
      model_validation_full st cdfB = Except.error Err.stateError) ∧
    ∃ st1 st2,
      compute_id_binomial_k_discrete st k q shell = Except.ok st1 ∧
      st1.intrinsic_dim = some (kFitValue ds st.X.length k q shell) ∧
      compute_id_binomial_lk st1 lk ln mth sub = Except.ok st2 ∧
      st2.intrinsic_dim = some (lkFitValue ds lk ln mth sub) ∧
      model_validation_full st2 cdfB
        = Except.ok (validationCore (lkFitValue ds lk ln mth sub) (distList ds) cdfB) := by
  constructor
  · intro h0
    simp [model_validation_full, h0]
  · refine ⟨{ st with
        intrinsic_dim := some (kFitValue ds st.X.length k q shell)
        kFit := some k },
      { st with
        intrinsic_dim := some (lkFitValue ds lk ln mth sub)
        kFit := some k }, ?_, rfl, ?_, rfl, ?_⟩
    · simp [compute_id_binomial_k_discrete, h]
    · simp [compute_id_binomial_lk, h]
    · simp [model_validation_full, h]

/-- C8 witness: the last-fit-wins theorem instantiated on a concrete
stored condensed state, with a `k`-fixed fit followed by a radius-fixed
fit and a point-mass validation. -/
theorem c8_last_fit_wins_witness :
    (stw2.intrinsic_dim = none →
      model_validation_full stw2 false = Except.error Err.stateError) ∧
    ∃ st1 st2,
      compute_id_binomial_k_discrete stw2 1 (1 / 2) false = Except.ok st1 ∧
      st1.intrinsic_dim = some (kFitValue (.condensedH 1 [0, 2]) stw2.X.length 1 (1 / 2) false) ∧
      compute_id_binomial_lk st1 1 0 Method.mle none = Except.ok st2 ∧
      st2.intrinsic_dim = some (lkFitValue (.condensedH 1 [0, 2]) 1 0 Method.mle none) ∧
      model_validation_full st2 false
        = Except.ok (validationCore (lkFitValue (.condensedH 1 [0, 2]) 1 0 Method.mle none)
            (distList (.condensedH 1 [0, 2])) false) :=
  c8_last_fit_wins stw2 (.condensedH 1 [0, 2]) 1 1 0 (1 / 2) false Method.mle none false rfl

theorem fullTable_length (X : List (List ℕ)) (p? : Option ℕ) (mk : ℕ) :
    (fullTable X p? mk).length = X.length := by
  simp [fullTable]

/-- C3: once distances have been computed, `compute_local_density` returns
two per-point arrays of length N in full mode, and two dataset-level
scalars in condensed mode. -/
theorem c3_density_output_shapes (X : List (List ℕ)) (p? : Option ℕ) (dmx maxk : ℕ)
    (fo : Bool) (hmk : maxk ≠ 0) :
    (∃ st1 w1 ns ms,
      compute_distances (IdDiscrete.init X) Metric.manhattan p? false dmx maxk
        = Except.ok (st1, w1) ∧
      compute_local_density st1 fo = Except.ok (DensityOut.fullOut ns ms) ∧
      ns.length = X.length ∧ ms.length = X.length) ∧
    (∃ st2 w2 mc md,
      compute_distances (IdDiscrete.init X) Metric.manhattan p? true dmx maxk
        = Except.ok (st2, w2) ∧
      compute_local_density st2 fo = Except.ok (DensityOut.condOut mc md)) := by
  constructor
  · refine ⟨{ X := X, distances := some (.full (fullTable X p? (min maxk (X.length - 1)))),
              intrinsic_dim := none, kFit := none },
      if X.length - 1 < maxk then [Warning.maxkClamped] else [],
      normalizeQ (castListQ (localCountsRawN (fullTable X p? (min maxk (X.length - 1))) 1)),
      normalizeQ (localDensRaw (fullTable X p? (min maxk (X.length - 1))) 1
        (X.headD []).length),
      ?_, ?_, ?_, ?_⟩
    · simp [compute_distances, hmk, IdDiscrete.init]
    · simp [compute_local_density]
    · rw [normalizeQ, List.length_map, castListQ_length, localCountsRawN,
        List.length_map, fullTable_length]
    · rw [normalizeQ, List.length_map, localDensRaw, List.length_map, fullTable_length]
  · refine ⟨{ X := X, distances := some (.condensedH dmx (histogram X p? dmx)),
              intrinsic_dim := none, kFit := none }, [],
      ((histogram X p? dmx).sum : ℚ) / ((X.length : ℚ) * (X.length : ℚ) * ((dmx : ℚ) + 1)),
      ((histogram X p? dmx).sum : ℚ) / ((X.length : ℚ) * (X.length : ℚ)
        * (ballVolume (X.headD []).length dmx : ℚ)),
      ?_, ?_⟩
    · simp [compute_distances, IdDiscrete.init]
    · simp [compute_local_density]

/-- C3 witness: the output-shape theorem instantiated on a concrete
two-point one-dimensional set. -/
theorem c3_density_output_shapes_witness :
    (∃ st1 w1 ns ms,
      compute_distances (IdDiscrete.init [[0], [1]]) Metric.manhattan none false 2 1
        = Except.ok (st1, w1) ∧
      compute_local_density st1 false = Except.ok (DensityOut.fullOut ns ms) ∧
      ns.length = ([[0], [1]] : List (List ℕ)).length ∧
      ms.length = ([[0], [1]] : List (List ℕ)).length) ∧
    (∃ st2 w2 mc md,
      compute_distances (IdDiscrete.init [[0], [1]]) Metric.manhattan none true 2 1
        = Except.ok (st2, w2) ∧
      compute_local_density st2 false = Except.ok (DensityOut.condOut mc md)) := by
  have h := c3_density_output_shapes [[0], [1]] none 2 1 false (by decide)
  exact ⟨h.1, h.2⟩

/-- C9: when `maxk` exceeds N-1 in full mode, `compute_distances` does not
fail — the table is built with the clamp `maxk := N-1` (every per-point
row has exactly N-1 entries), only the warning-class clamp condition is
surfaced, and a subsequent estimator call succeeds normally. -/
theorem c9_maxk_clamp (X : List (List ℕ)) (p? : Option ℕ) (dmx maxk k : ℕ) (q : ℚ)
    (shell : Bool) (h : X.length - 1 < maxk) :
    ∃ st1,
      compute_distances (IdDiscrete.init X) Metric.manhattan p? false dmx maxk
        = Except.ok (st1, [Warning.maxkClamped]) ∧
      st1.distances = some (DistState.full (fullTable X p? (X.length - 1))) ∧
      (∀ row ∈ fullTable X p? (X.length - 1), row.length = X.length - 1) ∧
      ∃ st2, compute_id_binomial_k_discrete st1 k q shell = Except.ok st2 ∧
        st2.intrinsic_dim ≠ none := by
  have hmk0 : maxk ≠ 0 := by omega
  have hmin : min maxk (X.length - 1) = X.length - 1 := Nat.min_eq_right (Nat.le_of_lt h)
  refine ⟨{ IdDiscrete.init X with
      distances := some (.full (fullTable X p? (X.length - 1))) }, ?_, rfl, ?_, ?_⟩
  · simp [compute_distances, hmk0, hmin, h, IdDiscrete.init]
  · intro row hrow
    rw [fullTable] at hrow
    obtain ⟨i, hi, rfl⟩ := List.mem_map.mp hrow
    rw [List.length_take, sortedRow_length X p? i (List.mem_range.mp hi)]
    exact Nat.min_self _
  · refine ⟨{ X := X, distances := some (.full (fullTable X p? (X.length - 1))),
              intrinsic_dim := some (kFitValue (.full (fullTable X p? (X.length - 1)))
                X.length k q shell),
              kFit := some k }, ?_, ?_⟩
    · simp [compute_id_binomial_k_discrete, IdDiscrete.init]
    · simp

/-- C9 witness: the clamp theorem instantiated on a concrete two-point set
with `maxk = 5 > N - 1 = 1`. -/
theorem c9_maxk_clamp_witness :
    ∃ st1,
      compute_distances (IdDiscrete.init [[0], [3]]) Metric.manhattan none false 4 5
        = Except.ok (st1, [Warning.maxkClamped]) ∧
      st1.distances = some (DistState.full (fullTable [[0], [3]] none
        (([[0], [3]] : List (List ℕ)).length - 1))) ∧
      (∀ row ∈ fullTable [[0], [3]] none (([[0], [3]] : List (List ℕ)).length - 1),
        row.length = ([[0], [3]] : List (List ℕ)).length - 1) ∧
      ∃ st2, compute_id_binomial_k_discrete st1 1 (1 / 2) false = Except.ok st2 ∧
        st2.intrinsic_dim ≠ none :=
  c9_maxk_clamp [[0], [3]] none 4 5 1 (1 / 2) false (by decide)

/-- C7: whenever a fit and distances exist, `model_validation_full`
returns an aggregate p-value in the half-open interval (0, 1], and for a
well-fitting model (empirical law matching the theoretical one, i.e. a
vanishing aggregate discrepancy) the p-value exceeds 0.005. -/
theorem c7_validation_pvalue (st : IdDiscrete) (cdfB : Bool) (d : ℚ) (ds : DistState)
    (h1 : st.intrinsic_dim = some d) (h2 : st.distances = some ds) :
    ∃ stats p,
      model_validation_full st cdfB = Except.ok (stats, p) ∧ 0 < p ∧ p ≤ 1 ∧
      (aggStat (distList ds) d cdfB = 0 → (1 : ℚ) / 200 < p) := by
  have hnn := aggStat_nonneg (distList ds) d cdfB
  refine ⟨validationStats (distList ds) d cdfB, pValue (aggStat (distList ds) d cdfB),
    ?_, ?_, ?_, ?_⟩
  · simp [model_validation_full, h1, h2, validationCore]
  · rw [pValue]
    positivity
  · rw [pValue, div_le_one (by linarith)]
    linarith
  · intro h0
    rw [h0, pValue]
    norm_num

/-- C7 witness: on two coincident points the empirical law is a point mass
at distance zero which coincides with the theoretical surrogate law, so
the validator of the fitted state returns p = 1 ∈ (0, 1]. -/
theorem c7_validation_pvalue_witness :
    ∃ stats p,
      model_validation_full stwFit false = Except.ok (stats, p) ∧ 0 < p ∧ p ≤ 1 ∧
      (aggStat (distList (.condensedH 0 [2])) 5 false = 0 → (1 : ℚ) / 200 < p) :=
  c7_validation_pvalue stwFit false 5 (.condensedH 0 [2]) rfl rfl

/-- C10: in full mode, after `compute_distances` on any dataset whose raw
neighbour counts are not all zero, the two outputs of
`compute_local_density` — per-point counts and per-point density ratios,
each normalised against the dataset-level uniform expectation — both have
arithmetic mean exactly 1. -/
theorem c10_density_means_one (X : List (List ℕ)) (p? : Option ℕ) (dmx maxk : ℕ)
    (fo : Bool) (hmk : maxk ≠ 0)
    (hsum : (localCountsRawN (fullTable X p? (min maxk (X.length - 1))) 1).sum ≠ 0) :
    ∃ st1 w1 ns ms,
      compute_distances (IdDiscrete.init X) Metric.manhattan p? false dmx maxk
        = Except.ok (st1, w1) ∧
      compute_local_density st1 fo = Except.ok (DensityOut.fullOut ns ms) ∧
      meanQ ns = 1 ∧ meanQ ms = 1 := by
  have hsumQ : (castListQ (localCountsRawN (fullTable X p? (min maxk (X.length - 1))) 1)).sum
      ≠ 0 := by
    rw [castListQ_sum]
    exact_mod_cast hsum
  have hdens := localDensRaw_sum_ne (fullTable X p? (min maxk (X.length - 1))) 1
    (X.headD []).length hsum
  refine ⟨{ X := X, distances := some (.full (fullTable X p? (min maxk (X.length - 1)))),
            intrinsic_dim := none, kFit := none },
    if X.length - 1 < maxk then [Warning.maxkClamped] else [],
    normalizeQ (castListQ (localCountsRawN (fullTable X p? (min maxk (X.length - 1))) 1)),
    normalizeQ (localDensRaw (fullTable X p? (min maxk (X.length - 1))) 1 (X.headD []).length),
    ?_, ?_, ?_, ?_⟩
  · simp [compute_distances, hmk, IdDiscrete.init]
  · simp [compute_local_density]
  · exact meanQ_normalizeQ _ hsumQ
  · exact meanQ_normalizeQ _ hdens

/-- C10 witness: three collinear points; the raw neighbour counts are
(1, 2, 1), so both normalised outputs average to exactly 1. -/
theorem c10_density_means_one_witness :
    ((localCountsRawN (fullTable [[0], [1], [2]] none
        (min 2 (([[0], [1], [2]] : List (List ℕ)).length - 1))) 1).sum ≠ 0) ∧
    ∃ st1 w1 ns ms,
      compute_distances (IdDiscrete.init [[0], [1], [2]]) Metric.manhattan none false 0 2
        = Except.ok (st1, w1) ∧
      compute_local_density st1 false = Except.ok (DensityOut.fullOut ns ms) ∧
      meanQ ns = 1 ∧ meanQ ms = 1 :=
  ⟨by decide, c10_density_means_one [[0], [1], [2]] none 0 2 false (by decide) (by decide)⟩

/-- C1: for the same point set, metric and period, the two storage modes
agree — the condensed histogram's total count equals N·(N-1) (all ordered
non-self pairs, all distances falling inside the `d_max` cutoff), and
`compute_id_binomial_k_discrete` with identical parameters returns the
same `intrinsic_dim` in both modes whenever full mode retains all N-1
neighbours per point. -/
theorem c1_full_condensed_agree (X : List (List ℕ)) (p? : Option ℕ) (dmx maxk k : ℕ)
    (q : ℚ) (shell : Bool) (hmk : X.length - 1 ≤ maxk) (hmk0 : maxk ≠ 0)
    (hdmx : ∀ x ∈ allPairDistances X p?, x ≤ dmx) :
    (histogram X p? dmx).sum = X.length * (X.length - 1) ∧
    ∃ stF wF stC wC stF2 stC2,
      compute_distances (IdDiscrete.init X) Metric.manhattan p? false dmx maxk
        = Except.ok (stF, wF) ∧
      compute_distances (IdDiscrete.init X) Metric.manhattan p? true dmx maxk
        = Except.ok (stC, wC) ∧
      compute_id_binomial_k_discrete stF k q shell = Except.ok stF2 ∧
      compute_id_binomial_k_discrete stC k q shell = Except.ok stC2 ∧
      stF2.intrinsic_dim = stC2.intrinsic_dim ∧ stF2.intrinsic_dim ≠ none := by
  have hNle : X.length - 1 ≤ min maxk (X.length - 1) := le_min hmk le_rfl
  have hpermF := distList_fullTable_perm X p? (min maxk (X.length - 1)) hNle
  have hpermC := distList_condensed_perm X p? dmx hdmx
  have hfit : kFitValue (.full (fullTable X p? (min maxk (X.length - 1)))) X.length k q shell
      = kFitValue (.condensedH dmx (histogram X p? dmx)) X.length k q shell := by
    rw [kFitValue, kFitValue, fitDiscreteKE_perm (hpermF.trans hpermC.symm)]
  refine ⟨histogram_sum X p? dmx hdmx,
    { X := X, distances := some (.full (fullTable X p? (min maxk (X.length - 1)))),
      intrinsic_dim := none, kFit := none },
    if X.length - 1 < maxk then [Warning.maxkClamped] else [],
    { X := X, distances := some (.condensedH dmx (histogram X p? dmx)),
      intrinsic_dim := none, kFit := none }, [],
    { X := X, distances := some (.full (fullTable X p? (min maxk (X.length - 1)))),
      intrinsic_dim := some (kFitValue (.full (fullTable X p? (min maxk (X.length - 1))))
        X.length k q shell),
      kFit := some k },
    { X := X, distances := some (.condensedH dmx (histogram X p? dmx)),
      intrinsic_dim := some (kFitValue (.condensedH dmx (histogram X p? dmx))
        X.length k q shell),
      kFit := some k },
    ?_, ?_, ?_, ?_, ?_, ?_⟩
  · simp [compute_distances, hmk0, IdDiscrete.init]
  · simp [compute_distances, IdDiscrete.init]
  · simp [compute_id_binomial_k_discrete]
  · simp [compute_id_binomial_k_discrete]
  · simpa using hfit
  · simp

/-- C1 witness: the mode-agreement theorem instantiated on a concrete
three-point periodic set with `d_max` covering all pair distances and
`maxk` retaining every neighbour, at the parameters `k = 25`, scale factor
one half, `shell = false`. -/
theorem c1_full_condensed_agree_witness :
    (Xw3.length - 1 ≤ 3 ∧ (3 : ℕ) ≠ 0 ∧ ∀ x ∈ allPairDistances Xw3 (some 4), x ≤ 8) ∧
    ((histogram Xw3 (some 4) 8).sum = Xw3.length * (Xw3.length - 1) ∧
    ∃ stF wF stC wC stF2 stC2,
      compute_distances (IdDiscrete.init Xw3) Metric.manhattan (some 4) false 8 3
        = Except.ok (stF, wF) ∧
      compute_distances (IdDiscrete.init Xw3) Metric.manhattan (some 4) true 8 3
        = Except.ok (stC, wC) ∧
      compute_id_binomial_k_discrete stF 25 (1 / 2) false = Except.ok stF2 ∧
      compute_id_binomial_k_discrete stC 25 (1 / 2) false = Except.ok stC2 ∧
      stF2.intrinsic_dim = stC2.intrinsic_dim ∧ stF2.intrinsic_dim ≠ none) :=
  ⟨⟨by decide, by decide, by decide⟩,
    c1_full_condensed_agree Xw3 (some 4) 8 3 25 (1 / 2) false (by decide) (by decide)
      (by decide)⟩
